import Mathlib

/-!
Shallow embedding of the markdown formatting engine from `src/formatter.py`
(class `MDFormatter`): anchor generation, camelCase-to-Title-Case
normalization, `{{ }}` variable-reference resolution, recursive list
rendering, per-element section assembly and document assembly.

Python strings are modelled as `List Char` (ASCII fragment, which covers
all characters the formatter manipulates).  Python functions that can
raise (`IndexError` on `word[0]` for an empty word, `KeyError` on a
missing dict key) are modelled with `Option`.
-/

/-- Python strings, modelled as lists of characters. -/
abbrev Str := List Char

/-- Embed a Lean string literal into the model. -/
def str (s : String) : Str := s.data

/-- Python's `\s` character class restricted to ASCII:
space, tab, newline, carriage return, vertical tab, form feed. -/
def pyIsSpace (c : Char) : Bool :=
  c == ' ' || c == '\t' || c == '\n' || c == '\r' || c == '\x0b' || c == '\x0c'

/-- ASCII model of Python `str.lower` on one character. -/
def lowerChar : Char → Char
  | 'A' => 'a' | 'B' => 'b' | 'C' => 'c' | 'D' => 'd' | 'E' => 'e'
  | 'F' => 'f' | 'G' => 'g' | 'H' => 'h' | 'I' => 'i' | 'J' => 'j'
  | 'K' => 'k' | 'L' => 'l' | 'M' => 'm' | 'N' => 'n' | 'O' => 'o'
  | 'P' => 'p' | 'Q' => 'q' | 'R' => 'r' | 'S' => 's' | 'T' => 't'
  | 'U' => 'u' | 'V' => 'v' | 'W' => 'w' | 'X' => 'x' | 'Y' => 'y'
  | 'Z' => 'z'
  | c => c

/-- ASCII model of Python `str.upper` on one character. -/
def upperChar : Char → Char
  | 'a' => 'A' | 'b' => 'B' | 'c' => 'C' | 'd' => 'D' | 'e' => 'E'
  | 'f' => 'F' | 'g' => 'G' | 'h' => 'H' | 'i' => 'I' | 'j' => 'J'
  | 'k' => 'K' | 'l' => 'L' | 'm' => 'M' | 'n' => 'N' | 'o' => 'O'
  | 'p' => 'P' | 'q' => 'Q' | 'r' => 'R' | 's' => 'S' | 't' => 'T'
  | 'u' => 'U' | 'v' => 'V' | 'w' => 'W' | 'x' => 'X' | 'y' => 'Y'
  | 'z' => 'Z'
  | c => c

/-- Python `str.lower` (ASCII model). -/
def pyLower (s : Str) : Str := s.map lowerChar

/-- Helper for `subSpaces`: the Boolean records whether the previous
character was whitespace (i.e. we are inside a run that has already
produced its hyphen). -/
def subSpacesAux : Str → Bool → Str
  | [], _ => []
  | c :: cs, inRun =>
    if pyIsSpace c then
      if inRun then subSpacesAux cs true
      else '-' :: subSpacesAux cs true
    else c :: subSpacesAux cs false

/-- Model of `re.sub(r'\s+', '-', s)`: replace every maximal run of whitespace
with a single hyphen. -/
def subSpaces (s : Str) : Str := subSpacesAux s false

/-- Model of `MDFormatter._anchorize`:
`re.sub(r'\s+', '-', name.lower().replace('-', ''))`. -/
def anchorize (name : Str) : Str :=
  subSpaces ((pyLower name).filter (fun c => !(c == '-')))

/-- Whether a match of `([^\s])([A-Z][^A-Z]+)` starts at a position
whose first character is `c₁` and whose remaining input is `cs`:
`c₁` is not whitespace, the next character is an uppercase letter and
the one after it exists and is not uppercase (`+` needs at least one
character). -/
def camelCondition (c₁ : Char) (cs : Str) : Bool :=
  match cs with
  | c₂ :: r :: _ => !pyIsSpace c₁ && c₂.isUpper && !r.isUpper
  | _ => false

/-- Scanner mode for `camelSub`.  `normal`: a match may start at the
current position.  `justMatched`: the previous step emitted `c₁` and the
inserted space; the current character is the uppercase `c₂` of the
match.  `tail`: inside the greedy `[^A-Z]+` run of a match, which the
scanner skips (matches never restart inside consumed text). -/
inductive CMode | normal | justMatched | tail

/-- Left-to-right scanner implementing one full
`re.sub(r'([^\s])([A-Z][^A-Z]+)', r'\1 \2', s)` pass. -/
def camelSubAux : CMode → Str → Str
  | _, [] => []
  | CMode.normal, c :: cs =>
    if camelCondition c cs then c :: ' ' :: camelSubAux CMode.justMatched cs
    else c :: camelSubAux CMode.normal cs
  | CMode.justMatched, c :: cs => c :: camelSubAux CMode.tail cs
  | CMode.tail, c :: cs =>
    if c.isUpper then
      -- the greedy run ended; scanning resumes at this position
      if camelCondition c cs then c :: ' ' :: camelSubAux CMode.justMatched cs
      else c :: camelSubAux CMode.normal cs
    else c :: camelSubAux CMode.tail cs

/-- Model of `re.sub(r'([^\s])([A-Z][^A-Z]+)', r'\1 \2', s)`. -/
def camelSub (s : Str) : Str := camelSubAux CMode.normal s

/-- Python `str.strip()`: drop leading and trailing whitespace. -/
def pyStrip (s : Str) : Str :=
  ((s.dropWhile pyIsSpace).reverse.dropWhile pyIsSpace).reverse

/-- Python `str.split(' ')` with the explicit single-space separator:
splits at every space, producing empty words for adjacent separators;
on the empty string it returns `[""]`. -/
def splitOnSpace : Str → List Str
  | [] => [[]]
  | c :: cs =>
    if c == ' ' then [] :: splitOnSpace cs
    else
      match splitOnSpace cs with
      | w :: ws => (c :: w) :: ws
      | [] => [[c]]

/-- Helper for `istitle`: `prevCased` tracks whether the previous
character was cased, `found` whether a cased character was seen. -/
def istitleAux : Str → Bool → Bool → Bool
  | [], _, found => found
  | c :: cs, prevCased, found =>
    if c.isUpper then
      (if prevCased then false else istitleAux cs true true)
    else if c.isLower then
      (if prevCased then istitleAux cs true true else false)
    else
      istitleAux cs false found

/-- Python `str.istitle()` (ASCII model): uppercase letters may only
follow uncased characters, lowercase letters only cased ones, and at
least one cased character must occur. -/
def istitle (s : Str) : Bool := istitleAux s false false

/-- Model of `word[0].upper() + word[1:]` — raises `IndexError` on an empty
word, modelled as `none`. -/
def capWord : Str → Option Str
  | [] => none
  | c :: cs => some (upperChar c :: cs)

/-- Model of `MDFormatter._camel_to_title`: if the string `istitle`, return it
unchanged; otherwise apply the camel-splitting substitution, strip,
split on single spaces and capitalize the first character of every
word.  `none` models the `IndexError` raised when a word is empty. -/
def camelToTitle (s : Str) : Option Str :=
  if istitle s then some s
  else
    ((splitOnSpace (pyStrip (camelSub s))).mapM capWord).map
      (List.intercalate (str " "))

/-- Model of `re.match('^{{(.*)}}$', s)`: anchored match; `.` does not match a
newline and `$` also matches just before a single trailing newline.
Returns the captured group (the text between the braces). -/
def matchVar (s : Str) : Option Str :=
  let core := if s.getLast? = some '\n' then s.dropLast else s
  if core.take 2 = ['{', '{'] ∧ 4 ≤ core.length
      ∧ core.drop (core.length - 2) = ['}', '}']
      ∧ '\n' ∉ (core.drop 2).dropLast.dropLast then
    some ((core.drop 2).dropLast.dropLast)
  else
    none

example : anchorize (str "Page View - GA4") = str "page-view-ga4" := by decide
example : camelToTitle (str "urlPath") = some (str "Url Path") := by decide
example : camelToTitle (str "htmlID") = some (str "HtmlID") := by decide
example : camelToTitle (str "HTML Path") = some (str "HTM L Path") := by decide
example : camelToTitle (str "") = none := by decide
example : camelToTitle (str "aBcDe") = some (str "A BcDe") := by decide
example : matchVar (str "{{ Page URL }}") = some (str " Page URL ") := by decide
example : matchVar (str "some literal") = none := by decide
example : matchVar (str "{{a}}{{b}}") = some (str "a\x7d\x7d\x7b\x7bb") := by decide
example : matchVar (str "{{x}}\n") = some (str "x") := by decide
example : anchorize (str " Page URL ") = str "-page-url-" := by decide

/-- A render-entry dict as consumed by `_md_list` / produced by
`_strip_variables`: Python dicts with the optional keys
`key`, `kanchor`, `relation`, `value`, `vanchor`, `list`. -/
inductive Item where
  | mk (key kanchor rel value vanchor : Option Str)
       (list : Option (List Item))

def Item.key : Item → Option Str | ⟨k, _, _, _, _, _⟩ => k
def Item.kanchor : Item → Option Str | ⟨_, ka, _, _, _, _⟩ => ka
def Item.rel : Item → Option Str | ⟨_, _, r, _, _, _⟩ => r
def Item.value : Item → Option Str | ⟨_, _, _, v, _, _⟩ => v
def Item.vanchor : Item → Option Str | ⟨_, _, _, _, va, _⟩ => va
def Item.list : Item → Option (List Item) | ⟨_, _, _, _, _, l⟩ => l

/-- An element dict as consumed by `MDFormatter._md_section` /
`MDFormatter.doc`.  `name`, `notes`, `tagManagerUrl`, `type` and
`category` are accessed unconditionally by the formatter; `parameter`,
`triggers` and `filter` are optional. -/
structure Element where
  name : Str
  notes : Str
  tagManagerUrl : Str
  type : Str
  category : Str
  parameter : Option (List Item)
  triggers : Option (List Item)
  filter : Option (List Item)

/-- The body of the loop of `MDFormatter._strip_variables` for a single
item: if the `key` (resp. `value`) matches `^{{(.*)}}$`, replace it by
the captured group and set `kanchor` (resp. `vanchor`) to its anchor.
The returned item is the state of the input dict after the in-place
updates. -/
def stripItem : Item → Item
  | ⟨k, ka, r, v, va, l⟩ =>
    let kp := match k with
      | none => (none, ka)
      | some ks =>
        match matchVar ks with
        | some inner => (some inner, some (anchorize inner))
        | none => (some ks, ka)
    let vp := match v with
      | none => (none, va)
      | some vs =>
        match matchVar vs with
        | some inner => (some inner, some (anchorize inner))
        | none => (some vs, va)
    ⟨kp.1, kp.2, r, vp.1, vp.2, l⟩

/-- Model of `MDFormatter._strip_variables`: apply `stripItem` to every item,
keeping the order. -/
def stripVariables (items : List Item) : List Item := items.map stripItem

/-- Model of `MDFormatter._md_headline`:
`'''###<a name="{0}"/>{1}'''.format(anchorize(name), name)`. -/
def mdHeadline (name : Str) : Str :=
  str "###<a name=\"" ++ anchorize name ++ str "\"/>" ++ name

/-- Model of `MDFormatter._md_notes` (the triple-quoted literal contains a
newline and sixteen spaces of indentation before `[view on GTM]`). -/
def mdNotes (notes url : Str) : Str :=
  if notes.length = 0 then
    str "*No description* <small>\n                [view on GTM]("
      ++ url ++ str ")</small>"
  else
    notes ++ str " <small>[view on GTM](" ++ url ++ str ")</small>"

/-- Model of `MDFormatter._md_key_value`, `'**{}:** {}'.format(key, value)`.
(The format string is `'**{}:** {}'`; the colon sits inside the bold
marker.) -/
def mdKeyValue (key value : Str) : Str :=
  str "**" ++ key ++ str ":** " ++ value

mutual

/-- Model of `MDFormatter._md_list(items, title, indent)`.  `none` models an
exception escaping the call (an `IndexError` from `_camel_to_title` on
an item key).  Python's `if title:` is truthiness, so an empty title
string behaves like no title. -/
def mdList (items : List Item) (title : Option Str) (indent : Nat) :
    Option Str :=
  match mdLines items indent with
  | none => none
  | some lines =>
    let parts :=
      (match title with
        | some t =>
          if t.isEmpty then [([] : Str)]
          else [str "**" ++ t ++ str "**\n"]
        | none => [([] : Str)]) ++ lines
    if parts.length = 1 then some (str "\n")
    else some (List.intercalate (str "\n") parts)
termination_by (sizeOf items, 1)

/-- The `for item in items` loop of `_md_list`: one rendered line per
item, failing as soon as one item fails. -/
def mdLines (items : List Item) (indent : Nat) : Option (List Str) :=
  match items with
  | [] => some []
  | it :: rest =>
    match mdLine it indent, mdLines rest indent with
    | some l, some ls => some (l :: ls)
    | _, _ => none
termination_by (sizeOf items, 0)

/-- One iteration of the `_md_list` loop: the bullet with `4 * indent`
spaces, the key part (title-cased in place, linked when `kanchor` is
present), the relation part (` *rel* ` or `: ` after a key), the value
part (linked when `vanchor` is present, quoted otherwise) and, when a
nested `list` is present, the sub-list rendered at the hard-coded
`indent=1`. -/
def mdLine (it : Item) (indent : Nat) : Option Str :=
  match it with
  | ⟨k0, ka, r, v, va, l⟩ =>
    let bullet := List.replicate (4 * indent) ' ' ++ str "- "
    match (match k0 with
           | none => some none
           | some ks => (camelToTitle ks).map some : Option (Option Str)) with
    | none => none
    | some k =>
      let keyPart : Str :=
        match k, ka with
        | some ks, some a => str "[" ++ ks ++ str "](#" ++ a ++ str ")"
        | some ks, none => ks
        | none, _ => []
      let relPart : Str :=
        match k, r with
        | some _, some rel => str " *" ++ rel ++ str "* "
        | some _, none => str ": "
        | none, _ => []
      let valPart : Str :=
        match v, va with
        | some vs, some a => str "[" ++ vs ++ str "](#" ++ a ++ str ")"
        | some vs, none => str "\"" ++ vs ++ str "\""
        | none, _ => []
      match l with
      | some cs =>
        match mdList cs none 1 with
        | some sub => some (bullet ++ keyPart ++ relPart ++ valPart ++ sub)
        | none => none
      | none => some (bullet ++ keyPart ++ relPart ++ valPart)
termination_by (sizeOf it, 2)

end

/-- Python string `<=` (lexicographic by code point, a proper prefix
precedes its extensions), used by `sorted(..., key=...)`. -/
def pyStrLe : Str → Str → Bool
  | [], _ => true
  | _ :: _, [] => false
  | a :: as, b :: bs => if a = b then pyStrLe as bs else decide (a < b)

/-- Ordering of elements by their `name`, as used by
`sorted(elements, key=lambda x: x['name'])` in `MDFormatter.doc`. -/
def nameLe (a b : Element) : Prop := pyStrLe a.name b.name = true

instance : DecidableRel nameLe := fun a b =>
  inferInstanceAs (Decidable (pyStrLe a.name b.name = true))

/-- Ordering of items by their `key`, as used by
`sorted(stripped, key=lambda x: x['key'])` in `_md_section`; the sort
key raises `KeyError` when an item has no `key`, so the comparison is
on `keyD`, guarded by `sortParams` below. -/
def keyLe (a b : Item) : Prop :=
  pyStrLe (a.key.getD []) (b.key.getD []) = true

instance : DecidableRel keyLe := fun a b =>
  inferInstanceAs (Decidable (pyStrLe (a.key.getD []) (b.key.getD []) = true))

/-- Model of `sorted(stripped, key=lambda x: x['key'])`: Python's stable sort by
key, modelled by stable insertion sort; extracting the key raises
`KeyError` (`none`) when an item lacks `key`. -/
def sortParams (items : List Item) : Option (List Item) :=
  if items.all (fun it => it.key.isSome) then
    some (List.insertionSort keyLe items)
  else
    none

/-- A `for`-loop that appends `f x` for each `x`, propagating the first
exception (`none`): the effectful map used by the loops in
`_md_section` and `doc`. -/
def optMap {α β : Type} (f : α → Option β) : List α → Option (List β)
  | [] => some []
  | a :: as =>
    match f a, optMap f as with
    | some b, some bs => some (b :: bs)
    | _, _ => none

/-- The trigger loop of `_md_section`: each trigger dict gets
`vanchor = anchorize(trigger['value'])` written into it; reading
`trigger['value']` raises `KeyError` (`none`) when absent. -/
def anchorTriggers (ts : List Item) : Option (List Item) :=
  optMap (fun t =>
    match t with
    | ⟨k, ka, r, v, _, l⟩ =>
      match v with
      | some vs => some (⟨k, ka, r, some vs, some (anchorize vs), l⟩ : Item)
      | none => none) ts

/-- Model of `MDFormatter._md_section`: headline, notes, title-cased type, then
the optional Parameters / Triggers (tags only) / Filters (triggers
only) lists, joined by blank lines.  `none` models an exception
escaping the call. -/
def mdSection (e : Element) : Option Str :=
  match camelToTitle e.type with
  | none => none
  | some ty =>
    let base := [mdHeadline e.name, mdNotes e.notes e.tagManagerUrl,
                 mdKeyValue (str "Type") ty]
    let params : Option (List Str) :=
      match e.parameter with
      | some ps =>
        match sortParams (stripVariables ps) with
        | none => none
        | some sortedPs =>
          match mdList sortedPs (some (str "Parameters")) 0 with
          | some md => some [md]
          | none => none
      | none => some []
    match params with
    | none => none
    | some ps =>
      let trigs : Option (List Str) :=
        if e.category = str "tag" then
          match e.triggers with
          | some ts =>
            match anchorTriggers ts with
            | none => none
            | some ats =>
              match mdList ats (some (str "Triggers")) 0 with
              | some md => some [md]
              | none => none
          | none => some []
        else some []
      match trigs with
      | none => none
      | some tr =>
        let filts : Option (List Str) :=
          if e.category = str "trigger" then
            match e.filter with
            | some fs =>
              match mdList (stripVariables fs) (some (str "Filters")) 0 with
              | some md => some [md]
              | none => none
            | none => some []
          else some []
        match filts with
        | none => none
        | some fl =>
          some (List.intercalate (str "\n\n") (base ++ ps ++ tr ++ fl))

/-- Model of `MDFormatter.doc`: sort all elements by name (stable), partition by
category into tags / triggers / variables (any other category is simply
not picked up by the three list comprehensions), emit the three fixed
group headings with the corresponding sections, joined by blank
lines. -/
def doc (elements : List Element) : Option Str :=
  let sortedElements := List.insertionSort nameLe elements
  let tags := sortedElements.filter fun e => e.category == str "tag"
  let triggers := sortedElements.filter fun e => e.category == str "trigger"
  let vbls := sortedElements.filter fun e => e.category == str "variable"
  match optMap mdSection tags, optMap mdSection triggers,
      optMap mdSection vbls with
  | some ts, some gs, some vs =>
    some (List.intercalate (str "\n\n")
      ([str "## Tags"] ++ ts ++ [str "## Triggers"] ++ gs
        ++ [str "## Variables"] ++ vs))
  | _, _, _ => none

/-- Modelled from the spec: "fully title-cased" in the spec's sense —
"every space-delimited word starts with an uppercase letter and
contains no other uppercase-after-lowercase transition" (spec section 4.2).
This is the spec-side definition, written only to compare it against the
code's `istitle` gate in `camelToTitle`.  Helper: no lowercase letter is
immediately followed by an uppercase letter. -/
def noLowerThenUpper : Str → Bool
  | a :: b :: rest => !(a.isLower && b.isUpper) && noLowerThenUpper (b :: rest)
  | _ => true

/-- Modelled from the spec: a string is fully title-cased when every
space-delimited word is nonempty, starts with an uppercase letter and
has no uppercase-after-lowercase transition. -/
def specFullyTitleCased (s : Str) : Bool :=
  (splitOnSpace s).all fun w =>
    match w with
    | [] => false
    | c :: cs => c.isUpper && noLowerThenUpper (c :: cs)

/-- The bucket of elements of category `c` in the order `doc` renders
them: sorted by name (stable), then filtered by category. -/
def bucket (c : String) (es : List Element) : List Element :=
  (List.insertionSort nameLe es).filter fun e => e.category == str c

theorem pyStrLe_trans :
    ∀ a b c : Str, pyStrLe a b = true → pyStrLe b c = true →
      pyStrLe a c = true := by
  intro a
  induction a with
  | nil => intro b c _ _; rfl
  | cons x xs ih =>
    intro b c hab hbc
    cases b with
    | nil => simp [pyStrLe] at hab
    | cons y ys =>
      cases c with
      | nil => simp [pyStrLe] at hbc
      | cons z zs =>
        simp only [pyStrLe] at hab hbc ⊢
        by_cases hxy : x = y
        · subst hxy
          simp only [if_pos rfl] at hab
          by_cases hxz : x = z
          · subst hxz
            simp only [if_pos rfl] at hbc ⊢
            exact ih ys zs hab hbc
          · simp only [if_neg hxz] at hbc ⊢
            exact hbc
        · simp only [if_neg hxy] at hab
          have hxy' : x < y := of_decide_eq_true hab
          by_cases hyz : y = z
          · subst hyz
            simp only [if_neg hxy]
            exact decide_eq_true hxy'
          · simp only [if_neg hyz] at hbc
            have hyz' : y < z := of_decide_eq_true hbc
            have hxz' : x < z := lt_trans hxy' hyz'
            have hxz : x ≠ z := ne_of_lt hxz'
            simp only [if_neg hxz]
            exact decide_eq_true hxz'

theorem pyStrLe_total :
    ∀ a b : Str, pyStrLe a b = true ∨ pyStrLe b a = true := by
  intro a
  induction a with
  | nil => intro b; left; rfl
  | cons x xs ih =>
    intro b
    cases b with
    | nil => right; rfl
    | cons y ys =>
      simp only [pyStrLe]
      by_cases hxy : x = y
      · subst hxy
        simp only [if_pos rfl]
        exact ih ys
      · rcases lt_or_gt_of_ne hxy with h | h
        · left
          simp only [if_neg hxy]
          exact decide_eq_true h
        · right
          have hyx : y ≠ x := fun he => hxy he.symm
          simp only [if_neg hyx]
          exact decide_eq_true h

instance : IsTrans Element nameLe :=
  ⟨fun a b c => pyStrLe_trans a.name b.name c.name⟩

instance : IsTotal Element nameLe :=
  ⟨fun a b => pyStrLe_total a.name b.name⟩

/-- C3 (counterexample): rendering an empty entries collection with
title "Parameters" does NOT produce the line `Parameters: *None*`; the
code returns a single newline whenever no item line was produced,
title or not. -/
theorem md_list_empty_titled_not_none_marker :
    mdList [] (some (str "Parameters")) 0 = some (str "\n")
      ∧ some (str "\n") ≠ some (str "Parameters: *None*") := by
  constructor
  · simp [mdList, mdLines]
    decide
  · decide

/-- C3 (amended): rendering an empty entries collection returns a
single newline, regardless of the title (even a non-empty one) and of
the indent; the `{title}: *None*` line of the claim is never
produced by `_md_list`. -/
theorem md_list_empty_renders_single_newline :
    ∀ (title : Option Str) (indent : Nat),
      mdList [] title indent = some (str "\n") := by
  intro title indent
  cases title with
  | none => simp [mdList, mdLines]
  | some t =>
    by_cases h : t.isEmpty <;> simp [mdList, mdLines, h]

/-- C8 (counterexample): an entry carrying children rendered at depth 1
gets its sub-list rendered at depth 1 again (4 spaces of indent), not
at depth 2 (8 spaces) as the claim requires. -/
theorem md_list_nested_children_not_deeper :
    mdList [Item.mk none none none (some (str "y")) none
        (some [Item.mk none none none (some (str "z")) none none])] none 1
      = some (str "\n    - \"y\"\n    - \"z\"")
    ∧ str "\n    - \"y\"\n    - \"z\"" ≠ str "\n    - \"y\"\n        - \"z\"" := by
  constructor
  · simp [mdList, mdLines, mdLine]
    decide
  · decide

/-- C8 (amended): an entry's children are rendered by a recursive call
with the hard-coded `indent=1` and no title, appended directly after
the entry's own line, whatever the current depth `d` is: the indent of
a sub-list does not grow with nesting depth. -/
theorem md_list_children_fixed_depth_one :
    ∀ (v : Str) (cs : List Item) (d : Nat),
      mdList [Item.mk none none none (some v) none (some cs)] none d
        = (mdList cs none 1).map
            (fun sub => str "\n" ++ List.replicate (4 * d) ' '
              ++ str "- \"" ++ v ++ str "\"" ++ sub) := by
  intro v cs d
  cases h : mdList cs none 1 with
  | none => simp [mdList, mdLines, mdLine, h]
  | some sub =>
    simp [mdList, mdLines, mdLine, h, List.intercalate, str]

set_option maxRecDepth 4000 in
/-- C5 (counterexample): an element whose category is "widget" (outside
{tag, trigger, variable}) does not make the build fail with an error;
`doc` succeeds and silently omits the element. -/
theorem doc_unknown_category_no_error :
    doc [⟨str "X", str "", str "u", str "t", str "widget", none, none, none⟩]
      = some (str "## Tags\n\n## Triggers\n\n## Variables") := by
  simp [doc, optMap, List.insertionSort, List.orderedInsert]
  decide

/-- C5 (amended): an element whose category value lies outside
{tag, trigger, variable} is silently dropped by the three category
filters of `doc`: the build succeeds and emits only the three group
headings for such an element. -/
theorem doc_unknown_category_dropped :
    ∀ e : Element, e.category ≠ str "tag" → e.category ≠ str "trigger" →
      e.category ≠ str "variable" →
      doc [e] = some (str "## Tags\n\n## Triggers\n\n## Variables") := by
  intro e h1 h2 h3
  have b1 : (e.category == str "tag") = false := beq_eq_false_iff_ne.mpr h1
  have b2 : (e.category == str "trigger") = false := beq_eq_false_iff_ne.mpr h2
  have b3 : (e.category == str "variable") = false := beq_eq_false_iff_ne.mpr h3
  simp [doc, optMap, List.insertionSort, List.orderedInsert, List.filter,
    b1, b2, b3, List.intercalate]
  decide

/-- C5 (witness for the amended theorem): a concrete element of
category "folder" is dropped silently. -/
theorem doc_unknown_category_dropped_witness :
    doc [⟨str "Y", str "", str "u", str "t", str "folder", none, none, none⟩]
      = some (str "## Tags\n\n## Triggers\n\n## Variables") :=
  doc_unknown_category_dropped
    ⟨str "Y", str "", str "u", str "t", str "folder", none, none, none⟩
    (by decide) (by decide) (by decide)

theorem matchVar_wrap (inner : Str) (h : '\n' ∉ inner) :
    matchVar ('{' :: '{' :: inner ++ ['}', '}']) = some inner := by
  have hlast : ('{' :: '{' :: inner ++ ['}', '}']).getLast? = some '}' := by
    rw [show '{' :: '{' :: inner ++ ['}', '}']
        = ('{' :: '{' :: inner ++ ['}']) ++ ['}'] by simp]
    exact List.getLast?_concat _
  have hinner : (inner ++ ['}', '}']).dropLast.dropLast = inner := by
    rw [show inner ++ ['}', '}'] = (inner ++ ['}']) ++ ['}'] by simp,
      List.dropLast_concat, List.dropLast_concat]
  have hlen : ('{' :: '{' :: inner ++ ['}', '}']).length = inner.length + 4 := by
    simp
  have hdropLen :
      ('{' :: '{' :: inner ++ ['}', '}']).drop (inner.length + 4 - 2)
        = ['}', '}'] := by
    rw [show ('{' :: '{' :: inner ++ ['}', '}'])
        = ('{' :: '{' :: inner) ++ ['}', '}'] from rfl]
    exact List.drop_left' (by simp)
  simp only [matchVar, hlast, Option.some.injEq]
  rw [if_neg (by decide : ¬('}' = '\n'))]
  rw [hlen, hdropLen]
  have htake : ('{' :: '{' :: inner ++ ['}', '}']).take 2 = ['{', '{'] := rfl
  have hdrop2 : ('{' :: '{' :: inner ++ ['}', '}']).drop 2
      = inner ++ ['}', '}'] := rfl
  rw [htake, hdrop2, hinner]
  rw [if_pos ⟨rfl, by omega, rfl, h⟩]

theorem matchVar_length_lt :
    ∀ (s i : Str), matchVar s = some i → i.length < s.length := by
  intro s i h
  unfold matchVar at h
  by_cases hl : s.getLast? = some '\n'
  · simp only [hl, if_pos] at h
    split at h
    · rename_i hcond
      obtain ⟨-, h4, -, -⟩ := hcond
      have hi := Option.some.inj h
      have hdl : s.dropLast.length = s.length - 1 := List.length_dropLast s
      have hslen : 1 ≤ s.length := by
        cases s with
        | nil => simp at hl
        | cons a as => simp
      have : i.length = s.dropLast.length - 4 := by
        rw [← hi]
        simp [List.length_dropLast, List.length_drop]
        omega
      omega
    · exact absurd h (by simp)
  · simp only [if_neg hl] at h
    split at h
    · rename_i hcond
      obtain ⟨-, h4, -, -⟩ := hcond
      have hi := Option.some.inj h
      have : i.length = s.length - 4 := by
        rw [← hi]
        simp [List.length_dropLast, List.length_drop]
        omega
      omega
    · exact absurd h (by simp)

/-- C2 (counterexample): resolving the value `"{{ Page URL }}"` does
not yield text "Page URL" / anchor "page-url"; the captured group keeps
its surrounding spaces verbatim, so the text is " Page URL " and the
anchor `anchorize(" Page URL ")` is "-page-url-". -/
theorem strip_variables_page_url_counterexample :
    (stripItem (Item.mk none none none
        (some (str "{{ Page URL }}")) none none)).value
      = some (str " Page URL ")
    ∧ (stripItem (Item.mk none none none
        (some (str "{{ Page URL }}")) none none)).vanchor
      = some (str "-page-url-")
    ∧ some (str " Page URL ") ≠ some (str "Page URL")
    ∧ some (str "-page-url-") ≠ some (str "page-url") :=
  ⟨rfl, rfl, by decide, by decide⟩

/-- C2 (amended): for every newline-free string entirely wrapped as
`{{inner}}` the resolver returns text equal to the inner content taken
verbatim (surrounding whitespace is NOT trimmed) and anchor equal to
`anchorize` of that text; every string that does not match the pattern
is returned unchanged with no anchor.  In particular
`"{{ Page URL }}"` yields text " Page URL " with anchor "-page-url-"
(not "Page URL" / "page-url"), and "some literal" is unchanged with no
anchor. -/
theorem strip_variables_resolver :
    (∀ inner : Str, '\n' ∉ inner →
      stripItem (Item.mk none none none
          (some (str "\x7b\x7b" ++ inner ++ str "\x7d\x7d")) none none)
        = Item.mk none none none (some inner) (some (anchorize inner)) none)
    ∧ (∀ s : Str, matchVar s = none →
        stripItem (Item.mk none none none (some s) none none)
          = Item.mk none none none (some s) none none)
    ∧ stripItem (Item.mk none none none
        (some (str "{{ Page URL }}")) none none)
      = Item.mk none none none (some (str " Page URL "))
          (some (str "-page-url-")) none
    ∧ stripItem (Item.mk none none none
        (some (str "some literal")) none none)
      = Item.mk none none none (some (str "some literal")) none none := by
  refine ⟨?_, ?_, rfl, rfl⟩
  · intro inner h
    have heq : str "\x7b\x7b" ++ inner ++ str "\x7d\x7d"
        = '{' :: '{' :: inner ++ ['}', '}'] := by
      simp [str]
    rw [heq]
    simp only [stripItem]
    rw [matchVar_wrap inner h]
  · intro s h
    simp [stripItem, h]

/-- C2 (witness): resolving the brace-wrapped value `"{{Page URL}}"`
(no padding spaces) yields text "Page URL" and anchor "page-url". -/
theorem strip_variables_resolver_witness :
    stripItem (Item.mk none none none (some (str "{{Page URL}}")) none none)
      = Item.mk none none none (some (str "Page URL"))
          (some (str "page-url")) none := by
  have h := strip_variables_resolver.1 (str "Page URL") (by decide)
  exact h

/-- C9 (counterexample): the variable-reference resolution stage does
mutate the record passed to it: after `_strip_variables` processes an
item whose value is `"{{A}}"`, the caller's item differs from what was
passed in (its value and anchor were overwritten in place). -/
theorem strip_item_mutates_counterexample :
    stripItem (Item.mk none none none (some (str "{{A}}")) none none)
      ≠ Item.mk none none none (some (str "{{A}}")) none none :=
  fun h => absurd (congrArg Item.value h) (by decide)

/-- C9 (amended): the formatting stages mutate their inputs in place:
whenever an item's value is a `{{ }}` reference, the resolver stage
rewrites the record (post-state differs from the passed record), so
input records are not left unchanged by the build. -/
theorem strip_item_mutates :
    ∀ (it : Item) (v i : Str), it.value = some v → matchVar v = some i →
      stripItem it ≠ it := by
  intro it v i hv hm heq
  have hval : (stripItem it).value = some i := by
    obtain ⟨k, ka, r, vv, va, l⟩ := it
    simp only [Item.value] at hv
    subst hv
    simp [stripItem, Item.value, hm]
  rw [heq, hv] at hval
  have hiv : i = v := (Option.some.inj hval).symm
  have hlen := matchVar_length_lt v i hm
  rw [hiv] at hlen
  exact lt_irrefl _ hlen

/-- C9 (witness): a concrete item whose value `"{{B}}"` is resolved is
not returned unchanged. -/
theorem strip_item_mutates_witness :
    stripItem (Item.mk none none none (some (str "{{B}}")) none none)
      ≠ Item.mk none none none (some (str "{{B}}")) none none :=
  strip_item_mutates _ (str "{{B}}") (str "B") rfl (by decide)

/-- C7 (counterexample): "HTML Path" is fully title-cased in the
spec's sense (every word starts uppercase, no uppercase after
lowercase), yet the normalizer does not return it unchanged: Python's
`istitle()` rejects the all-caps run and the camel-splitting regex then
inserts a space inside "HTML", giving "HTM L Path". -/
theorem camel_to_title_titlecased_changed :
    specFullyTitleCased (str "HTML Path") = true
    ∧ camelToTitle (str "HTML Path") = some (str "HTM L Path")
    ∧ some (str "HTM L Path") ≠ some (str "HTML Path") := by
  refine ⟨by decide, by decide, by decide⟩

/-- C7 (amended): the normalizer returns unchanged exactly the strings
accepted by Python's `istitle()` (uppercase only after uncased,
lowercase only after cased) — not every string that is title-cased in
the spec's sense, see the counterexample.  It maps "urlPath" to
"Url Path", and on "htmlID" it retains the internal capital run "ID",
returning "HtmlID" (only the first character of each resulting word is
upper-cased; the rest of each word's casing is untouched). -/
theorem camel_to_title_spec :
    (∀ s : Str, istitle s = true → camelToTitle s = some s)
    ∧ camelToTitle (str "urlPath") = some (str "Url Path")
    ∧ camelToTitle (str "htmlID") = some (str "HtmlID") := by
  refine ⟨?_, by decide, by decide⟩
  intro s h
  simp [camelToTitle, h]

/-- C7 (witness): a concrete istitle-cased string is returned
unchanged. -/
theorem camel_to_title_spec_witness :
    istitle (str "Abc Def") = true
    ∧ camelToTitle (str "Abc Def") = some (str "Abc Def") :=
  ⟨by decide, camel_to_title_spec.1 (str "Abc Def") (by decide)⟩

theorem mapM_loop_capWord_eq_none :
    ∀ (ws acc : List Str),
      List.mapM.loop capWord ws acc = none ↔ [] ∈ ws := by
  intro ws
  induction ws with
  | nil => intro acc; simp [List.mapM.loop]
  | cons w rest ih =>
    intro acc
    cases w with
    | nil => simp [List.mapM.loop, capWord]
    | cons c cs => simp [List.mapM.loop, capWord, ih]

theorem mapM_capWord_eq_none :
    ∀ ws : List Str, ws.mapM capWord = none ↔ [] ∈ ws := by
  intro ws
  rw [show ws.mapM capWord = List.mapM.loop capWord ws [] from rfl]
  exact mapM_loop_capWord_eq_none ws []

/-- C10: the title-case normalizer is partial at its interface: it
raises (returns `none`) on the empty string; for every non-title-cased
input it fails exactly when the split (after the camel substitution and
strip) contains an empty word — e.g. around two adjacent interior
spaces — and returns normally only when every resulting word is
non-empty; consequently an element whose `type` is the empty string
makes `_md_section` fail. -/
theorem camel_to_title_partiality :
    camelToTitle (str "") = none
    ∧ (∀ s : Str, istitle s = false →
        (camelToTitle s = none
          ↔ [] ∈ splitOnSpace (pyStrip (camelSub s))))
    ∧ (∀ e : Element, e.type = str "" → mdSection e = none) := by
  refine ⟨by decide, ?_, ?_⟩
  · intro s h
    simp [camelToTitle, h, mapM_capWord_eq_none]
    exact mapM_loop_capWord_eq_none _ []
  · intro e h
    have h0 : camelToTitle e.type = none := by rw [h]; decide
    simp [mdSection, h0]

/-- C10 (witness): "a  b" (interior double space, not title-cased)
makes the normalizer fail, and a concrete element with empty `type`
makes the section builder fail. -/
theorem camel_to_title_partiality_witness :
    camelToTitle (str "a  b") = none
    ∧ mdSection ⟨str "N", str "", str "u", str "", str "variable",
        none, none, none⟩ = none :=
  ⟨(camel_to_title_partiality.2.1 (str "a  b") (by decide)).mpr (by decide),
   camel_to_title_partiality.2.2
     ⟨str "N", str "", str "u", str "", str "variable", none, none, none⟩
     rfl⟩

theorem pyIsSpace_lowerChar (c : Char) :
    pyIsSpace (lowerChar c) = pyIsSpace c := by
  unfold lowerChar
  split <;> rfl

theorem lowerChar_fix (c : Char) : lowerChar (lowerChar c) = lowerChar c := by
  by_cases h : c ∈ (['A', 'B', 'C', 'D', 'E', 'F', 'G', 'H', 'I', 'J', 'K',
      'L', 'M', 'N', 'O', 'P', 'Q', 'R', 'S', 'T', 'U', 'V', 'W', 'X', 'Y',
      'Z'] : List Char)
  · fin_cases h <;> decide
  · have h1 : lowerChar c = c := by
      unfold lowerChar
      split <;> first | rfl | exact absurd (by decide) h
    rw [h1]
    exact h1

theorem subSpacesAux_no_space :
    ∀ (s : Str) (b : Bool) (c : Char),
      c ∈ subSpacesAux s b → pyIsSpace c = false := by
  intro s
  induction s with
  | nil => intro b c hc; simp [subSpacesAux] at hc
  | cons x xs ih =>
    intro b c hc
    simp only [subSpacesAux] at hc
    by_cases hx : pyIsSpace x = true
    · rw [if_pos hx] at hc
      cases b with
      | true => exact ih true c hc
      | false =>
        rcases List.mem_cons.mp hc with h | h
        · rw [h]; decide
        · exact ih true c h
    · rw [if_neg hx] at hc
      rcases List.mem_cons.mp hc with h | h
      · rw [h]; exact Bool.not_eq_true _ ▸ eq_false_of_ne_true hx
      · exact ih false c h

theorem subSpacesAux_id :
    ∀ (s : Str) (b : Bool), (∀ c ∈ s, pyIsSpace c = false) →
      subSpacesAux s b = s := by
  intro s
  induction s with
  | nil => intro b _; rfl
  | cons x xs ih =>
    intro b h
    have hx : pyIsSpace x = false := h x (List.mem_cons_self x xs)
    simp only [subSpacesAux, hx]
    simp only [Bool.false_eq_true, if_false]
    exact congrArg (x :: ·) (ih false fun c hc => h c (List.mem_cons_of_mem x hc))

theorem anchorize_no_space :
    ∀ (s : Str) (c : Char), c ∈ anchorize s → pyIsSpace c = false := by
  intro s c hc
  exact subSpacesAux_no_space _ false c hc

theorem anchorize_eq_self_of_clean :
    ∀ u : Str, (∀ c ∈ u, pyIsSpace c = false) → (∀ c ∈ u, (c == '-') = false)
      → (∀ c ∈ u, lowerChar c = c) → anchorize u = u := by
  intro u h1 h2 h3
  unfold anchorize
  have hmap : pyLower u = u := by
    unfold pyLower
    rw [List.map_congr_left h3]
    exact List.map_id' u
  rw [hmap]
  have hfil : u.filter (fun c => !(c == '-')) = u := by
    apply List.filter_eq_self.mpr
    intro a ha
    simp [h2 a ha]
  rw [hfil]
  exact subSpacesAux_id u false h1

/-- C6: `anchorize` is idempotent on already-slugged strings: for every
`x` in the image of `anchorize`, `anchorize (anchorize x) = anchorize x`
(slugs contain no whitespace, so the second application only re-lowers
and re-filters what is already lower-case and, after one more
application, stable). -/
theorem anchorize_idempotent_on_slugs :
    ∀ (y x : Str), x = anchorize y →
      anchorize (anchorize x) = anchorize x := by
  intro y x hx
  subst hx
  have hw : ∀ c ∈ anchorize y, pyIsSpace c = false := anchorize_no_space y
  have hu : anchorize (anchorize y)
      = (pyLower (anchorize y)).filter (fun c => !(c == '-')) := by
    unfold anchorize
    apply subSpacesAux_id
    intro c hc
    have hc' := (List.mem_filter.mp hc).1
    obtain ⟨d, hd, hdc⟩ := List.mem_map.mp hc'
    rw [← hdc, pyIsSpace_lowerChar]
    exact hw d hd
  rw [hu]
  apply anchorize_eq_self_of_clean
  · intro c hc
    have hc' := (List.mem_filter.mp hc).1
    obtain ⟨d, hd, hdc⟩ := List.mem_map.mp hc'
    rw [← hdc, pyIsSpace_lowerChar]
    exact hw d hd
  · intro c hc
    have := (List.mem_filter.mp hc).2
    simpa using this
  · intro c hc
    have hc' := (List.mem_filter.mp hc).1
    obtain ⟨d, hd, hdc⟩ := List.mem_map.mp hc'
    rw [← hdc]
    exact lowerChar_fix d

/-- C6 (witness): the slug "a-b" = anchorize "a b" is a fixed point of
a further double application. -/
theorem anchorize_idempotent_on_slugs_witness :
    str "a-b" = anchorize (str "a b")
    ∧ anchorize (anchorize (str "a-b")) = anchorize (str "a-b") :=
  ⟨by decide,
   anchorize_idempotent_on_slugs (str "a b") (str "a-b") (by decide)⟩

/-- C1: round-trip link resolution — the heading of an element named
`n` embeds exactly the anchor `anchorize n`; a trigger entry with value
`v` (the target element's name) is emitted as `- [v](#anchorize v)`,
whose anchor equals `anchorize` of the name used in the target's
heading; and `{{ }}`-resolved keys/values get `kanchor`/`vanchor` equal
to `anchorize` of the resolved target name, the same function applied
to the same string as in the target's heading. -/
theorem cross_link_anchors_roundtrip :
    (∀ n : Str, mdHeadline n
        = str "###<a name=\"" ++ anchorize n ++ str "\"/>" ++ n)
    ∧ (∀ v : Str,
        anchorTriggers [Item.mk none none none (some v) none none]
          = some [Item.mk none none none (some v) (some (anchorize v)) none]
        ∧ mdList [Item.mk none none none (some v) (some (anchorize v)) none]
            (some (str "Triggers")) 0
          = some (str "**Triggers**\n\n- [" ++ v ++ str "](#"
              ++ anchorize v ++ str ")"))
    ∧ (∀ (k v ik iv : Str), matchVar k = some ik → matchVar v = some iv →
        stripItem (Item.mk (some k) none none (some v) none none)
          = Item.mk (some ik) (some (anchorize ik)) none (some iv)
              (some (anchorize iv)) none) := by
  refine ⟨fun n => rfl, fun v => ⟨?_, ?_⟩, ?_⟩
  · simp [anchorTriggers, optMap]
  · simp [mdList, mdLines, mdLine, List.intercalate, List.intersperse, str]
  · intro k v ik iv hk hv
    simp only [stripItem]
    rw [hk, hv]

/-- C1 (witness): a concrete resolved filter item carries anchors that
are `anchorize` of the resolved names. -/
theorem cross_link_anchors_roundtrip_witness :
    stripItem (Item.mk (some (str "{{Event}}")) none none
        (some (str "{{Click Text}}")) none none)
      = Item.mk (some (str "Event")) (some (str "event")) none
          (some (str "Click Text")) (some (str "click-text")) none := by
  have h := cross_link_anchors_roundtrip.2.2 (str "{{Event}}")
    (str "{{Click Text}}") (str "Event") (str "Click Text")
    (by decide) (by decide)
  exact h

set_option maxRecDepth 4000 in
/-- C4: document assembly — the empty element list yields exactly the
three group headings; in general a successful build emits `## Tags`,
`## Triggers`, `## Variables` in this fixed order with each element's
section in its category's bucket, each bucket sorted by name in plain
lexicographic ascending order and holding exactly the elements of that
category (a permutation of the category's filter of the input). -/
theorem doc_structure :
    doc [] = some (str "## Tags\n\n## Triggers\n\n## Variables")
    ∧ ∀ (es : List Element) (md : Str), doc es = some md →
        ∃ ts gs vs,
          optMap mdSection (bucket "tag" es) = some ts
          ∧ optMap mdSection (bucket "trigger" es) = some gs
          ∧ optMap mdSection (bucket "variable" es) = some vs
          ∧ md = List.intercalate (str "\n\n")
              ([str "## Tags"] ++ ts ++ [str "## Triggers"] ++ gs
                ++ [str "## Variables"] ++ vs)
          ∧ List.Sorted nameLe (bucket "tag" es)
          ∧ List.Sorted nameLe (bucket "trigger" es)
          ∧ List.Sorted nameLe (bucket "variable" es)
          ∧ (bucket "tag" es).Perm
              (es.filter fun e => e.category == str "tag")
          ∧ (bucket "trigger" es).Perm
              (es.filter fun e => e.category == str "trigger")
          ∧ (bucket "variable" es).Perm
              (es.filter fun e => e.category == str "variable") := by
  constructor
  · simp [doc, optMap, List.intercalate]
    decide
  · intro es md h
    have hsorted : List.Sorted nameLe (List.insertionSort nameLe es) :=
      List.sorted_insertionSort nameLe es
    have hperm : (List.insertionSort nameLe es).Perm es :=
      List.perm_insertionSort nameLe es
    have hsc : ∀ c : String, List.Sorted nameLe (bucket c es) := fun c =>
      List.Pairwise.sublist (List.filter_sublist _) hsorted
    have hpc : ∀ c : String,
        (bucket c es).Perm (es.filter fun e => e.category == str c) :=
      fun c => hperm.filter _
    simp only [doc] at h
    split at h
    · rename_i ts gs vs hts hgs hvs
      exact ⟨ts, gs, vs, hts, hgs, hvs, (Option.some.inj h).symm,
        hsc "tag", hsc "trigger", hsc "variable",
        hpc "tag", hpc "trigger", hpc "variable"⟩
    · exact absurd h (by simp)

/-- C4 (witness): instantiating the structure theorem at the empty
element list. -/
theorem doc_structure_witness :
    ∃ ts gs vs,
      optMap mdSection (bucket "tag" []) = some ts
      ∧ optMap mdSection (bucket "trigger" []) = some gs
      ∧ optMap mdSection (bucket "variable" []) = some vs
      ∧ str "## Tags\n\n## Triggers\n\n## Variables"
          = List.intercalate (str "\n\n")
            ([str "## Tags"] ++ ts ++ [str "## Triggers"] ++ gs
              ++ [str "## Variables"] ++ vs)
      ∧ List.Sorted nameLe (bucket "tag" [])
      ∧ List.Sorted nameLe (bucket "trigger" [])
      ∧ List.Sorted nameLe (bucket "variable" [])
      ∧ (bucket "tag" []).Perm
          (List.filter (fun e => e.category == str "tag") [])
      ∧ (bucket "trigger" []).Perm
          (List.filter (fun e => e.category == str "trigger") [])
      ∧ (bucket "variable" []).Perm
          (List.filter (fun e => e.category == str "variable") []) :=
  doc_structure.2 [] (str "## Tags\n\n## Triggers\n\n## Variables")
    doc_structure.1
